import Mathlib

set_option maxHeartbeats 1000000

/-!
Shallow embedding of the resource-bounded task distribution engine
(`src/core/worker-pool-manager.ts`, `src/core/task-queue.ts`,
`src/controllers/base-controller.ts`, `src/workers/base-worker.ts`).

Modelling conventions:
* JS object references (workers) are modelled as natural-number identifiers;
  `Array.includes` on object references becomes list membership on ids.
* JS `Map` insertion-ordered key/value storage is an association list.
* Timestamps (`new Date()`) are modelled as an abstract `Nat` clock value
  passed in by the caller; `uuidv4()` is modelled as a fresh counter value.
* All configuration numbers are natural numbers; quantities that can go
  negative in JS (`maxConcurrentWorkers - totalWorkers`) are computed in `Int`.
* Asynchronous execution is modelled sequentially: in the source, all borrows
  of `executeTaskBatches` happen synchronously inside the launch loop before
  any batch result settles, so the borrow phase and the settle phase are
  modelled as two sequential passes in launch order.
* A thrown JS exception is an `Except.error`.
* Division `tasks.length / maxTasksPerWorker` is modelled for positive
  `maxTasksPerWorker` (the configured value is a positive integer); theorems
  that depend on it carry that hypothesis explicitly.
-/

namespace Scraper

/-- Configuration for a worker pool (`WorkerPoolConfig`). -/
structure WorkerPoolConfig where
  maxWorkers : Nat
  name : String
deriving Repr, DecidableEq

/-- State of `WorkerPool`: the `workers` and `availableWorkers` arrays hold
worker ids (object references in the source). -/
structure WorkerPool where
  workers : List Nat
  availableWorkers : List Nat
  maxWorkers : Nat
  name : String
deriving Repr, DecidableEq

/-- `WorkerPool.addWorker`: rejects when the pool is full, otherwise pushes the
worker onto both `workers` and `availableWorkers`. -/
def WorkerPool.addWorker (p : WorkerPool) (w : Nat) : WorkerPool × Bool :=
  if p.workers.length ≥ p.maxWorkers then (p, false)
  else ({ p with workers := p.workers ++ [w],
                 availableWorkers := p.availableWorkers ++ [w] }, true)

/-- `WorkerPool` constructor: starts empty and folds `addWorker` over the
initial workers. -/
def WorkerPool.create (config : WorkerPoolConfig) (initWorkers : List Nat) : WorkerPool :=
  initWorkers.foldl (fun p w => (p.addWorker w).1)
    { workers := [], availableWorkers := [],
      maxWorkers := config.maxWorkers, name := config.name }

/-- `WorkerPool.borrowWorker`: pops from the end of `availableWorkers`
(`Array.pop`), or yields none when empty. -/
def WorkerPool.borrowWorker (p : WorkerPool) : WorkerPool × Option Nat :=
  match p.availableWorkers.getLast? with
  | none => (p, none)
  | some w => ({ p with availableWorkers := p.availableWorkers.dropLast }, some w)

/-- `WorkerPool.returnWorker`: fails if the worker does not belong to the pool
or is already available, otherwise pushes it back onto `availableWorkers`. -/
def WorkerPool.returnWorker (p : WorkerPool) (w : Nat) : WorkerPool × Bool :=
  if w ∉ p.workers then (p, false)
  else if w ∈ p.availableWorkers then (p, false)
  else ({ p with availableWorkers := p.availableWorkers ++ [w] }, true)

/-- `WorkerPool.getAvailableCount`. -/
def WorkerPool.getAvailableCount (p : WorkerPool) : Nat :=
  p.availableWorkers.length

/-- `WorkerPool.getTotalCount`. -/
def WorkerPool.getTotalCount (p : WorkerPool) : Nat :=
  p.workers.length

/-- The pool invariant claimed by the specification: availability is a subset
of membership, capacity is respected, and neither list holds duplicates. -/
def WorkerPool.Inv (p : WorkerPool) : Prop :=
  (∀ w ∈ p.availableWorkers, w ∈ p.workers) ∧
  p.workers.length ≤ p.maxWorkers ∧
  p.availableWorkers.Nodup ∧
  p.workers.Nodup

instance (p : WorkerPool) : Decidable p.Inv := by
  unfold WorkerPool.Inv; infer_instance

/-- Resource limits of the manager (`ResourceLimits`). -/
structure ResourceLimits where
  maxConcurrentWorkers : Nat
  maxRequestsPerMinute : Nat
  maxRequestsPerHour : Nat
deriving Repr, DecidableEq

/-- State of `WorkerPoolManager`: the `Map` of pools is an insertion-ordered
association list. -/
structure WorkerPoolManager where
  pools : List (String × WorkerPool)
  resourceLimits : ResourceLimits
deriving Repr, DecidableEq

/-- Errors thrown by `WorkerPoolManager.createPool`. -/
inductive PoolError where
  | duplicatePoolName
  | resourceExhausted
deriving Repr, DecidableEq

/-- Sum of `getTotalCount` over all registered pools, written as the source's
`reduce` over the map values. -/
def WorkerPoolManager.totalWorkerCount (m : WorkerPoolManager) : Nat :=
  m.pools.foldl (fun sum pr => sum + pr.2.getTotalCount) 0

/-- `WorkerPoolManager.createPool`: duplicate-name check, remaining-capacity
check against the sum of the pools' current total worker counts, then clamps
the requested `maxWorkers` to the remaining capacity. -/
def WorkerPoolManager.createPool (m : WorkerPoolManager) (config : WorkerPoolConfig)
    (initWorkers : List Nat) : Except PoolError (WorkerPoolManager × WorkerPool) :=
  if config.name ∈ m.pools.map Prod.fst then
    .error .duplicatePoolName
  else
    let totalWorkers := m.totalWorkerCount
    let availableWorkers : Int :=
      (m.resourceLimits.maxConcurrentWorkers : Int) - (totalWorkers : Int)
    if availableWorkers ≤ 0 then
      .error .resourceExhausted
    else
      let adjustedConfig : WorkerPoolConfig :=
        { config with maxWorkers := min config.maxWorkers availableWorkers.toNat }
      let pool := WorkerPool.create adjustedConfig initWorkers
      .ok ({ m with pools := m.pools ++ [(config.name, pool)] }, pool)

/-- A fresh manager with no pools. -/
def WorkerPoolManager.create (rl : ResourceLimits) : WorkerPoolManager :=
  { pools := [], resourceLimits := rl }

/-- Task status strings of `task-queue.ts`. -/
inductive TaskStatus where
  | pending
  | inProgress
  | completed
  | failed
deriving Repr, DecidableEq

/-- The terminal statuses accepted by `updateTaskStatus` (the TypeScript
parameter type is the union `completed | failed`). -/
inductive TerminalStatus where
  | completed
  | failed
deriving Repr, DecidableEq

/-- Injection of the terminal statuses into all statuses. -/
def TerminalStatus.toTaskStatus : TerminalStatus → TaskStatus
  | .completed => .completed
  | .failed => .failed

/-- `TaskWithStatus<P>` of `task-queue.ts`; `lastAttempt` is an abstract clock
value and `errorMsg` models the optional `error` string field. -/
structure TaskWithStatus (P : Type) where
  id : Nat
  payload : P
  status : TaskStatus
  attempts : Nat
  lastAttempt : Option Nat
  errorMsg : Option String
deriving Repr, DecidableEq

/-- State of `TaskQueue<P>`; `nextId` models the `uuidv4()` generator as a
fresh-counter source. -/
structure TaskQueue (P : Type) where
  tasks : List (TaskWithStatus P)
  name : String
  nextId : Nat
deriving Repr, DecidableEq

/-- A fresh task queue. -/
def TaskQueue.create (P : Type) (name : String) : TaskQueue P :=
  { tasks := [], name := name, nextId := 0 }

/-- `TaskQueue.addTask`: appends a fresh `pending` task with `attempts = 0`. -/
def TaskQueue.addTask {P : Type} (q : TaskQueue P) (payload : P) :
    TaskQueue P × TaskWithStatus P :=
  let task : TaskWithStatus P :=
    { id := q.nextId, payload := payload, status := .pending,
      attempts := 0, lastAttempt := none, errorMsg := none }
  ({ q with tasks := q.tasks ++ [task], nextId := q.nextId + 1 }, task)

/-- `TaskQueue.addTasks`: maps `addTask` over the payloads. -/
def TaskQueue.addTasks {P : Type} (q : TaskQueue P) (payloads : List P) :
    TaskQueue P × List (TaskWithStatus P) :=
  payloads.foldl
    (fun pr payload =>
      let (q1, t) := pr.1.addTask payload
      (q1, pr.2 ++ [t]))
    (q, [])

/-- The in-place mutation applied by `getNextBatch` to each drawn task. -/
def markDrawn {P : Type} (now : Nat) (t : TaskWithStatus P) : TaskWithStatus P :=
  { t with status := .inProgress, attempts := t.attempts + 1, lastAttempt := some now }

/-- Shared-array effect of `getNextBatch`: the first `n` tasks whose status is
`pending` are mutated by `markDrawn`, all other tasks are left in place. -/
def markBatch {P : Type} (now : Nat) : Nat → List (TaskWithStatus P) → List (TaskWithStatus P)
  | _, [] => []
  | 0, ts => ts
  | n + 1, t :: ts =>
    if t.status = .pending then markDrawn now t :: markBatch now n ts
    else t :: markBatch now (n + 1) ts

/-- `TaskQueue.getNextBatch`: filters the `pending` tasks, keeps the first
`batchSize` of them, marks each drawn task `in_progress` with `attempts`
incremented and `lastAttempt` stamped, and returns the drawn tasks. -/
def TaskQueue.getNextBatch {P : Type} (q : TaskQueue P) (batchSize : Nat) (now : Nat) :
    TaskQueue P × List (TaskWithStatus P) :=
  let drawn := ((q.tasks.filter (fun t => t.status == .pending)).take batchSize).map
    (markDrawn now)
  ({ q with tasks := markBatch now batchSize q.tasks }, drawn)

/-- First-match update used by `updateTaskStatus` (`Array.find` then mutate). -/
def updateFirst {P : Type} (taskId : Nat) (f : TaskWithStatus P → TaskWithStatus P) :
    List (TaskWithStatus P) → List (TaskWithStatus P)
  | [] => []
  | t :: ts =>
    if t.id = taskId then f t :: ts
    else t :: updateFirst taskId f ts

/-- Field mutation of `updateTaskStatus`: sets the status unconditionally and
sets the error message only when one is supplied (the source guard
`if (error)` is JS truthiness, so an empty string is not stored). -/
def applyTerminal {P : Type} (status : TerminalStatus) (err : Option String)
    (t : TaskWithStatus P) : TaskWithStatus P :=
  { t with status := status.toTaskStatus,
           errorMsg := match err with
             | some e => if e = "" then t.errorMsg else some e
             | none => t.errorMsg }

/-- `TaskQueue.updateTaskStatus`: finds the first task with the given id and
sets its terminal status; unknown ids leave the queue unchanged. -/
def TaskQueue.updateTaskStatus {P : Type} (q : TaskQueue P) (taskId : Nat)
    (status : TerminalStatus) (err : Option String) : TaskQueue P :=
  if (q.tasks.find? (fun t => t.id == taskId)).isSome then
    { q with tasks := updateFirst taskId (applyTerminal status err) q.tasks }
  else q

/-- `TaskQueue.isComplete`: every task is `completed` or `failed`. -/
def TaskQueue.isComplete {P : Type} (q : TaskQueue P) : Bool :=
  q.tasks.all (fun t => t.status == .completed || t.status == .failed)

/-- `TaskQueue.hasPendingTasks`: some task is `pending`. -/
def TaskQueue.hasPendingTasks {P : Type} (q : TaskQueue P) : Bool :=
  q.tasks.any (fun t => t.status == .pending)

/-- `TaskQueue.getTaskCounts`. -/
def TaskQueue.getTaskCounts {P : Type} (q : TaskQueue P) : Nat × Nat × Nat × Nat × Nat :=
  (q.tasks.countP (fun t => t.status == .pending),
   q.tasks.countP (fun t => t.status == .inProgress),
   q.tasks.countP (fun t => t.status == .completed),
   q.tasks.countP (fun t => t.status == .failed),
   q.tasks.length)

/-- Mutating queue operations, used to state lifecycle invariants over
arbitrary operation sequences. -/
inductive QueueOp (P : Type) where
  | addTask (payload : P)
  | addTasks (payloads : List P)
  | getNextBatch (limit : Nat) (now : Nat)
  | updateTaskStatus (taskId : Nat) (status : TerminalStatus) (err : Option String)

/-- Application of one mutating queue operation. -/
def TaskQueue.applyOp {P : Type} (q : TaskQueue P) : QueueOp P → TaskQueue P
  | .addTask payload => (q.addTask payload).1
  | .addTasks payloads => (q.addTasks payloads).1
  | .getNextBatch limit now => (q.getNextBatch limit now).1
  | .updateTaskStatus taskId status err => q.updateTaskStatus taskId status err

/-- Rank of a status along the lifecycle `pending → in_progress → terminal`. -/
def statusRank : TaskStatus → Nat
  | .pending => 0
  | .inProgress => 1
  | .completed => 2
  | .failed => 2

/-- `Task<P>` of `types/worker.ts`: an id and a payload. -/
structure Task (P : Type) where
  id : Nat
  payload : P
deriving Repr, DecidableEq

/-- `TaskResult<R>`: the timestamp field is not modelled; `error` carries the
value of a thrown JS exception, with exception values drawn from `E`. -/
structure TaskResult (R E : Type) where
  taskId : Nat
  success : Bool
  data : Option R
  error : Option E
deriving Repr, DecidableEq

/-- `WorkerExecutionResult<R>` of `types/controller.ts`. -/
structure WorkerExecutionResult (R E : Type) where
  workerId : Nat
  results : List (TaskResult R E)
deriving Repr, DecidableEq

/-- `ControllerStatus` counters. -/
structure ControllerStatus where
  activeWorkers : Nat
  pendingTasks : Nat
  completedTasks : Nat
  failedTasks : Nat
  isExecuting : Bool
deriving Repr, DecidableEq

/-- `ControllerConfig` (the launch delay does not influence any result value
in the sequential model but is kept as configuration data). -/
structure ControllerConfig where
  maxConcurrentWorkers : Nat
  maxTasksPerWorker : Nat
  workerLaunchDelayMs : Nat
deriving Repr, DecidableEq

/-- Exceptions thrown by `BaseController.execute`: the two entry-guard error
messages, and the `TypeError` raised by `batches[index % 0].push` when the
task distribution runs with zero computed workers. -/
inductive ExecError where
  | alreadyExecuting
  | noWorkersAvailable
  | typeError
deriving Repr, DecidableEq

/-- State of `BaseController`: worker objects are modelled by ids; the workers
field is the controller's direct worker list. -/
structure BaseController where
  config : ControllerConfig
  workerPool : Option WorkerPool
  workers : List Nat
  status : ControllerStatus
deriving Repr, DecidableEq

/-- The `numWorkers` computation of `BaseController.distributeTasks`:
`min(maxConcurrentWorkers, capacity, ceil(taskCount / maxTasksPerWorker))`
where capacity is the pool's available count or the direct list length.
`Math.ceil (n / m)` is `(n + m - 1) / m` for positive `m`. -/
def BaseController.numWorkers (c : BaseController) (taskCount : Nat) : Nat :=
  match c.workerPool with
  | some p =>
    min c.config.maxConcurrentWorkers
      (min p.getAvailableCount ((taskCount + c.config.maxTasksPerWorker - 1) / c.config.maxTasksPerWorker))
  | none =>
    min c.config.maxConcurrentWorkers
      (min c.workers.length ((taskCount + c.config.maxTasksPerWorker - 1) / c.config.maxTasksPerWorker))

/-- Loop body of `distributeTasks`: each task is pushed onto the batch at
index `i % numWorkers`; with zero batches the indexing faults (`none`,
modelling the thrown `TypeError`). -/
def distributeTasks {P : Type} (k : Nat) (tasks : List (Task P)) :
    Option (List (List (Task P))) :=
  tasks.enum.foldl
    (fun acc p =>
      acc.bind (fun batches =>
        if p.1 % k < batches.length then
          some (batches.set (p.1 % k) (batches.getD (p.1 % k) [] ++ [p.2]))
        else none))
    (some (List.replicate k []))

/-- One assignment produced by the launch loop: original batch index, batch,
and the worker obtained for it (none when the batch is empty or no worker
could be obtained). -/
def Assignment (P : Type) : Type := Nat × List (Task P) × Option Nat

/-- Worker-acquisition phase of `executeTaskBatches`: in the source all
borrows happen synchronously inside the launch loop, before any batch
settles. Empty batches are skipped; with a bound pool a worker is borrowed;
otherwise the direct list is indexed by `i % workers.length` (an empty direct
list yields no worker). -/
def assignLoop {P : Type} (workers : List Nat) :
    Option WorkerPool → Nat → List (List (Task P)) →
    List (Assignment P) × Option WorkerPool
  | pool?, _, [] => ([], pool?)
  | pool?, i, b :: bs =>
    if b.isEmpty then
      let r := assignLoop workers pool? (i + 1) bs
      ((i, b, none) :: r.1, r.2)
    else
      match pool? with
      | some pool =>
        let r := assignLoop workers (some pool.borrowWorker.1) (i + 1) bs
        ((i, b, pool.borrowWorker.2) :: r.1, r.2)
      | none =>
        let w? := if workers.isEmpty then none
                  else some (workers.getD (i % workers.length) 0)
        let r := assignLoop workers none (i + 1) bs
        ((i, b, w?) :: r.1, r.2)

/-- The failure result synthesized for a task when its whole batch throws. -/
def batchFailureResult {P E R : Type} (e : E) (t : Task P) : TaskResult R E :=
  { taskId := t.id, success := false, data := none, error := some e }

/-- Settle phase of `executeTaskBatches`, in launch order: a batch with no
worker is skipped; otherwise the worker's `fetchBatch` either returns results
(counted by per-result outcome) or throws (a failure result is synthesized for
every task of the batch and `failedTasks` grows by the batch size); in both
cases `pendingTasks` shrinks by the batch size and the borrowed worker is
returned to the pool. -/
def runAssignments {P R E : Type} (env : Nat → List (Task P) → Except E (List (TaskResult R E))) :
    List (Assignment P) → Option WorkerPool → ControllerStatus →
    List (WorkerExecutionResult R E) × ControllerStatus × Option WorkerPool
  | [], pool?, st => ([], st, pool?)
  | (i, b, w?) :: rest, pool?, st =>
    match w? with
    | none => runAssignments env rest pool? st
    | some w =>
      match env w b with
      | .ok batchResults =>
        let st1 : ControllerStatus :=
          { st with pendingTasks := st.pendingTasks - b.length,
                    completedTasks := st.completedTasks + batchResults.countP (fun r => r.success),
                    failedTasks := st.failedTasks + batchResults.countP (fun r => !r.success) }
        let r := runAssignments env rest (pool?.map (fun p => (p.returnWorker w).1)) st1
        (⟨i + 1, batchResults⟩ :: r.1, r.2)
      | .error e =>
        let st1 : ControllerStatus :=
          { st with pendingTasks := st.pendingTasks - b.length,
                    failedTasks := st.failedTasks + b.length }
        let r := runAssignments env rest (pool?.map (fun p => (p.returnWorker w).1)) st1
        (⟨i + 1, b.map (batchFailureResult e)⟩ :: r.1, r.2)

/-- Status reset performed at the start of `execute`. -/
def resetStatus (taskCount : Nat) : ControllerStatus :=
  { activeWorkers := 0, pendingTasks := taskCount,
    completedTasks := 0, failedTasks := 0, isExecuting := true }

/-- Post-guard body of `BaseController.execute` on distributed batches:
worker acquisition, batch execution, flattening of the per-worker results,
and the final status recomputation from the flattened results. -/
def executeCore {P R E : Type} (c : BaseController)
    (env : Nat → List (Task P) → Except E (List (TaskResult R E)))
    (tasks : List (Task P)) (batches : List (List (Task P))) :
    List (TaskResult R E) × ControllerStatus :=
  let asgn := assignLoop c.workers c.workerPool 0 batches
  let run := runAssignments env asgn.1 asgn.2 (resetStatus tasks.length)
  let flatResults := (run.1.map (fun r => r.results)).flatten
  (flatResults,
   { activeWorkers := 0, pendingTasks := 0,
     completedTasks := flatResults.countP (fun r => r.success),
     failedTasks := flatResults.countP (fun r => !r.success),
     isExecuting := false })

/-- `BaseController.execute`: entry guards, status reset, task distribution,
then the core batch execution. `env` gives each worker id its `fetchBatch`
behaviour. -/
def BaseController.execute {P R E : Type} (c : BaseController)
    (env : Nat → List (Task P) → Except E (List (TaskResult R E)))
    (tasks : List (Task P)) :
    Except ExecError (List (TaskResult R E) × ControllerStatus) :=
  if c.status.isExecuting then .error .alreadyExecuting
  else if c.workerPool.isNone && c.workers.isEmpty then .error .noWorkersAvailable
  else
    match distributeTasks (c.numWorkers tasks.length) tasks with
    | none => .error .typeError
    | some batches => .ok (executeCore c env tasks batches)

/-- Managers reachable by successful `createPool` calls that always supply at
least as many initial workers as the requested capacity (fully populated
pools). -/
inductive ReachFullyPopulated : WorkerPoolManager → Prop where
  | init (rl : ResourceLimits) : ReachFullyPopulated (WorkerPoolManager.create rl)
  | step {m m' : WorkerPoolManager} {pool : WorkerPool}
      (config : WorkerPoolConfig) (initWorkers : List Nat) :
      ReachFullyPopulated m →
      config.maxWorkers ≤ initWorkers.length →
      m.createPool config initWorkers = .ok (m', pool) →
      ReachFullyPopulated m'

/-- Manager fixture with a global ceiling of three workers. -/
def mgrLimit3 : WorkerPoolManager := WorkerPoolManager.create ⟨3, 0, 0⟩

/-- Result of creating an empty pool of capacity two on `mgrLimit3`. -/
def mgrAfterA : WorkerPoolManager × WorkerPool :=
  match mgrLimit3.createPool ⟨2, "a"⟩ [] with
  | .ok pr => pr
  | .error _ => (mgrLimit3, WorkerPool.create ⟨0, "a"⟩ [])

/-- Result of creating a second empty pool of capacity three afterwards. -/
def mgrAfterAB : WorkerPoolManager × WorkerPool :=
  match mgrAfterA.1.createPool ⟨3, "b"⟩ [] with
  | .ok pr => pr
  | .error _ => (mgrAfterA.1, WorkerPool.create ⟨0, "b"⟩ [])

/-- Manager fixture with a ceiling of two workers. -/
def mgrLimit2 : WorkerPoolManager := WorkerPoolManager.create ⟨2, 0, 0⟩

/-- Result of creating a fully populated pool of capacity one on `mgrLimit2`. -/
def mgrAfterFull : WorkerPoolManager × WorkerPool :=
  match mgrLimit2.createPool ⟨1, "a"⟩ [5] with
  | .ok pr => pr
  | .error _ => (mgrLimit2, WorkerPool.create ⟨0, "a"⟩ [])

/-- The pending task at position 1 of `witnessQueue`. -/
def witnessTask1 : TaskWithStatus Nat :=
  { id := 1, payload := 11, status := .pending, attempts := 0,
    lastAttempt := none, errorMsg := none }

/-- Queue fixture: one task already in progress, two pending tasks. -/
def witnessQueue : TaskQueue Nat :=
  { tasks :=
      [{ id := 0, payload := 10, status := .inProgress, attempts := 1,
         lastAttempt := some 0, errorMsg := none },
       { id := 1, payload := 11, status := .pending, attempts := 0,
         lastAttempt := none, errorMsg := none },
       { id := 2, payload := 12, status := .pending, attempts := 0,
         lastAttempt := none, errorMsg := none }],
    name := "w", nextId := 3 }

/-- Pool fixture: capacity two, no workers yet. -/
def emptyPool2 : WorkerPool :=
  { workers := [], availableWorkers := [], maxWorkers := 2, name := "p" }

/-- Pool fixture: capacity two with workers 1 and 2, worker 2 borrowed. -/
def borrowedPool : WorkerPool :=
  { workers := [1, 2], availableWorkers := [1], maxWorkers := 2, name := "p" }

/-- Task-list fixture: five tasks with ids 1 to 5. -/
def exTasks5 : List (Scraper.Task Nat) :=
  [⟨1, 0⟩, ⟨2, 0⟩, ⟨3, 0⟩, ⟨4, 0⟩, ⟨5, 0⟩]

/-- Controller fixture: direct worker list of two workers,
`maxConcurrentWorkers = 2`, `maxTasksPerWorker = 3`. -/
def cDirect2 : BaseController :=
  { config := ⟨2, 3, 0⟩, workerPool := none, workers := [21, 22],
    status := ⟨0, 0, 0, 0, false⟩ }

/-- Controller fixture bound to an empty pool with no direct workers. -/
def cEmptyPool : BaseController :=
  { config := ⟨2, 3, 0⟩, workerPool := some emptyPool2, workers := [],
    status := ⟨0, 0, 0, 0, false⟩ }

/-- Controller fixture that is already executing. -/
def cBusy : BaseController :=
  { config := ⟨2, 3, 0⟩, workerPool := none, workers := [21],
    status := ⟨0, 0, 0, 0, true⟩ }

/-- Worker-behaviour fixture: every worker succeeds on every task, reporting
the worker id as the data. -/
def envOkNat : Nat → List (Scraper.Task Nat) → Except Nat (List (TaskResult Nat Nat)) :=
  fun w ts =>
    .ok (ts.map (fun t => { taskId := t.id, success := true, data := some w, error := none }))

/-- Worker-behaviour fixture: worker 21 throws the exception value 99 on any
batch, every other worker succeeds on every task. -/
def envFailNat : Nat → List (Scraper.Task Nat) → Except Nat (List (TaskResult Nat Nat)) :=
  fun w ts =>
    if w == 21 then .error 99
    else .ok (ts.map (fun t => { taskId := t.id, success := true, data := some w, error := none }))

end Scraper

namespace Scraper

theorem WorkerPool.addWorker_full {p : WorkerPool} {w : Nat}
    (h : p.maxWorkers ≤ p.workers.length) : p.addWorker w = (p, false) := by
  unfold WorkerPool.addWorker
  rw [if_pos h]

theorem WorkerPool.addWorker_push {p : WorkerPool} {w : Nat}
    (h : p.workers.length < p.maxWorkers) :
    p.addWorker w = ({ p with workers := p.workers ++ [w],
                              availableWorkers := p.availableWorkers ++ [w] }, true) := by
  unfold WorkerPool.addWorker
  rw [if_neg (by omega)]

theorem foldl_addWorker_maxWorkers (ws : List Nat) (p : WorkerPool) :
    (ws.foldl (fun q w => (q.addWorker w).1) p).maxWorkers = p.maxWorkers := by
  induction ws generalizing p with
  | nil => rfl
  | cons w ws ih =>
    rw [List.foldl_cons, ih]
    by_cases h : p.maxWorkers ≤ p.workers.length
    · rw [WorkerPool.addWorker_full h]
    · rw [WorkerPool.addWorker_push (by omega)]

theorem create_maxWorkers (mw : Nat) (nm : String) (ws : List Nat) :
    (WorkerPool.create ⟨mw, nm⟩ ws).maxWorkers = mw := by
  unfold WorkerPool.create
  rw [foldl_addWorker_maxWorkers]

theorem foldl_addWorker_length (ws : List Nat) (p : WorkerPool)
    (hp : p.workers.length ≤ p.maxWorkers) :
    (ws.foldl (fun q w => (q.addWorker w).1) p).workers.length
      = min (p.workers.length + ws.length) p.maxWorkers := by
  induction ws generalizing p with
  | nil => simp; omega
  | cons w ws ih =>
    rw [List.foldl_cons]
    by_cases h : p.maxWorkers ≤ p.workers.length
    · rw [WorkerPool.addWorker_full h]
      simp only [ih p hp, List.length_cons]
      omega
    · rw [WorkerPool.addWorker_push (by omega)]
      rw [ih _ (by simp; omega)]
      simp
      omega

theorem create_getTotalCount (mw : Nat) (nm : String) (ws : List Nat) :
    (WorkerPool.create ⟨mw, nm⟩ ws).getTotalCount = min ws.length mw := by
  unfold WorkerPool.create WorkerPool.getTotalCount
  rw [foldl_addWorker_length _ _ (by simp)]
  simp

theorem countP_not_split {α : Type} (p : α → Bool) (l : List α) :
    l.countP p + l.countP (fun a => !(p a)) = l.length := by
  induction l with
  | nil => rfl
  | cons a l ih =>
    simp only [List.countP_cons, List.length_cons]
    cases h : p a <;> simp [h] <;> omega

theorem borrowed_available_accounting (workers avail : List Nat)
    (hsub : ∀ x ∈ avail, x ∈ workers) (hw : workers.Nodup) (ha : avail.Nodup) :
    (workers.filter (fun x => decide (x ∉ avail))).length + avail.length
      = workers.length := by
  have hperm : (workers.filter (fun x => decide (x ∈ avail))).Perm avail := by
    apply List.perm_of_nodup_nodup_toFinset_eq (hw.filter _) ha
    ext a
    simp only [List.mem_toFinset, List.mem_filter, decide_eq_true_eq]
    exact ⟨fun h => h.2, fun h => ⟨hsub a h, h⟩⟩
  have hsplit : (workers.filter (fun x => decide (x ∈ avail))).length
      + (workers.filter (fun x => decide (x ∉ avail))).length = workers.length := by
    rw [← List.countP_eq_length_filter, ← List.countP_eq_length_filter]
    have h0 := countP_not_split (fun x => decide (x ∈ avail)) workers
    have h1 : workers.countP (fun x => decide (x ∉ avail))
        = workers.countP (fun x => !(decide (x ∈ avail))) := by
      apply List.countP_congr
      intro x _
      simp
    rw [h1]
    exact h0
  have := hperm.length_eq
  omega

theorem addWorker_fresh_inv (p : WorkerPool) (w : Nat) (hp : p.Inv)
    (hw : w ∉ p.workers) : (p.addWorker w).1.Inv := by
  obtain ⟨hsub, hlen, hano, hwno⟩ := hp
  by_cases hfull : p.maxWorkers ≤ p.workers.length
  · rw [WorkerPool.addWorker_full hfull]
    exact ⟨hsub, hlen, hano, hwno⟩
  · rw [WorkerPool.addWorker_push (by omega)]
    refine ⟨?_, ?_, ?_, ?_⟩
    · intro x hx
      simp only [List.mem_append, List.mem_singleton] at hx ⊢
      rcases hx with hx | hx
      · exact Or.inl (hsub x hx)
      · exact Or.inr hx
    · simp
      omega
    · simp only [List.nodup_append, List.nodup_singleton]
      exact ⟨hano, by simp, by
        intro x hx hx'
        simp only [List.mem_singleton] at hx'
        exact hw (hx' ▸ hsub x hx)⟩
    · simp only [List.nodup_append, List.nodup_singleton]
      exact ⟨hwno, by simp, by
        intro x hx hx'
        simp only [List.mem_singleton] at hx'
        exact hw (hx' ▸ hx)⟩

theorem foldl_addWorker_inv (ws : List Nat) :
    ∀ (p : WorkerPool), p.Inv → (∀ w ∈ ws, w ∉ p.workers) → ws.Nodup →
      (ws.foldl (fun q w => (q.addWorker w).1) p).Inv := by
  induction ws with
  | nil =>
    intro p hp _ _
    exact hp
  | cons w ws ih =>
    intro p hp hfresh hnd
    rw [List.foldl_cons]
    have hw : w ∉ p.workers := hfresh w (List.mem_cons_self w ws)
    refine ih _ (addWorker_fresh_inv p w hp hw) ?_ (List.nodup_cons.mp hnd).2
    intro w' hw'
    by_cases hfull : p.maxWorkers ≤ p.workers.length
    · rw [WorkerPool.addWorker_full hfull]
      exact hfresh w' (List.mem_cons_of_mem w hw')
    · rw [WorkerPool.addWorker_push (by omega)]
      simp only [List.mem_append, List.mem_singleton]
      rintro (hc | hc)
      · exact hfresh w' (List.mem_cons_of_mem w hw') hc
      · rw [hc] at hw'
        exact (List.nodup_cons.mp hnd).1 hw'

theorem create_inv (config : WorkerPoolConfig) (ws : List Nat) (hnd : ws.Nodup) :
    (WorkerPool.create config ws).Inv := by
  unfold WorkerPool.create
  refine foldl_addWorker_inv ws _ ?_ ?_ hnd
  · exact ⟨by simp, by simp, by simp, by simp⟩
  · intro w' hw'
    simp

/-- Claim C5 counterexample: starting from a pool satisfying the invariant,
`addWorker` called twice with the same worker puts that worker into
`availableWorkers` twice, destroying the invariant; the constructor given a
repeated initial worker does the same, so neither operation preserves the
invariant unconditionally. -/
theorem C5_duplicate_addWorker_counterexample :
    emptyPool2.Inv ∧
    ((emptyPool2.addWorker 1).1.addWorker 1).1.availableWorkers = [1, 1] ∧
    ¬ ((emptyPool2.addWorker 1).1.addWorker 1).1.availableWorkers.Nodup ∧
    ¬ ((emptyPool2.addWorker 1).1.addWorker 1).1.Inv ∧
    (WorkerPool.create ⟨2, "p"⟩ [1, 1]).availableWorkers = [1, 1] ∧
    ¬ (WorkerPool.create ⟨2, "p"⟩ [1, 1]).Inv := by
  refine ⟨by decide, by decide, by decide, by decide, by decide, by decide⟩

/-- Claim C5, amended: the constructor on duplicate-free initial workers and
`addWorker` of a worker that is not already in the pool, as well as
`borrowWorker` and `returnWorker` unconditionally, all preserve the pool
invariant (availability a duplicate-free subset of the duplicate-free worker
set, capacity respected); borrowed plus available workers account for the
whole pool; `returnWorker` fails without state change for a worker outside
the pool, and for a borrowed worker it succeeds exactly once, the second
return failing without state change. -/
theorem C5_pool_invariant_preservation (p : WorkerPool) (w : Nat) (hp : p.Inv) :
    (∀ (config : WorkerPoolConfig) (initWorkers : List Nat),
      initWorkers.Nodup → (WorkerPool.create config initWorkers).Inv) ∧
    (w ∉ p.workers → ((p.addWorker w).1.Inv)) ∧
    (p.borrowWorker.1.Inv) ∧
    ((p.returnWorker w).1.Inv) ∧
    (w ∉ p.workers → p.returnWorker w = (p, false)) ∧
    (w ∈ p.workers → w ∉ p.availableWorkers →
      (p.returnWorker w).2 = true ∧
      ((p.returnWorker w).1.returnWorker w) = ((p.returnWorker w).1, false)) ∧
    ((p.workers.filter (fun x => decide (x ∉ p.availableWorkers))).length
       + p.availableWorkers.length = p.workers.length) := by
  obtain ⟨hsub, hlen, hano, hwno⟩ := hp
  refine ⟨fun config initWorkers hnd => create_inv config initWorkers hnd, ?_, ?_, ?_, ?_, ?_, ?_⟩
  · intro hw
    exact addWorker_fresh_inv p w ⟨hsub, hlen, hano, hwno⟩ hw
  · unfold WorkerPool.borrowWorker
    cases hlast : p.availableWorkers.getLast? with
    | none => exact ⟨hsub, hlen, hano, hwno⟩
    | some v =>
      refine ⟨?_, hlen, ?_, hwno⟩
      · intro x hx
        exact hsub x (List.Sublist.mem hx (List.dropLast_sublist _))
      · exact hano.sublist (List.dropLast_sublist _)
  · unfold WorkerPool.returnWorker
    by_cases hmem : w ∈ p.workers
    · rw [if_neg (by simp [hmem])]
      by_cases hav : w ∈ p.availableWorkers
      · rw [if_pos hav]
        exact ⟨hsub, hlen, hano, hwno⟩
      · rw [if_neg hav]
        refine ⟨?_, hlen, ?_, hwno⟩
        · intro x hx
          simp only [List.mem_append, List.mem_singleton] at hx
          rcases hx with hx | hx
          · exact hsub x hx
          · exact hx ▸ hmem
        · simp only [List.nodup_append, List.nodup_singleton]
          exact ⟨hano, by simp, by
            intro x hx hx'
            simp only [List.mem_singleton] at hx'
            exact hav (hx' ▸ hx)⟩
    · rw [if_pos hmem]
      exact ⟨hsub, hlen, hano, hwno⟩
  · intro hw
    unfold WorkerPool.returnWorker
    rw [if_pos hw]
  · intro hmem hav
    have hfirst : p.returnWorker w
        = ({ p with availableWorkers := p.availableWorkers ++ [w] }, true) := by
      unfold WorkerPool.returnWorker
      rw [if_neg (by simp [hmem]), if_neg hav]
    refine ⟨by rw [hfirst], ?_⟩
    rw [hfirst]
    unfold WorkerPool.returnWorker
    rw [if_neg (by simp [hmem]), if_pos (by simp)]
  · exact borrowed_available_accounting p.workers p.availableWorkers hsub hwno hano

/-- Witness for the amended claim C5 at a concrete pool with a borrowed
worker. -/
theorem foldl_add_totalCount (l : List (String × WorkerPool)) (a : Nat) :
    l.foldl (fun sum pr => sum + pr.2.getTotalCount) a
      = a + (l.map (fun pr => pr.2.getTotalCount)).sum := by
  induction l generalizing a with
  | nil => simp
  | cons pr l ih =>
    rw [List.foldl_cons, ih]
    simp
    omega

theorem totalWorkerCount_eq_sum (m : WorkerPoolManager) :
    m.totalWorkerCount = (m.pools.map (fun pr => pr.2.getTotalCount)).sum := by
  unfold WorkerPoolManager.totalWorkerCount
  rw [foldl_add_totalCount]
  omega

theorem createPool_ok_inversion {m m' : WorkerPoolManager} {pool : WorkerPool}
    {config : WorkerPoolConfig} {ws : List Nat}
    (h : m.createPool config ws = .ok (m', pool)) :
    config.name ∉ m.pools.map Prod.fst ∧
    m.totalWorkerCount < m.resourceLimits.maxConcurrentWorkers ∧
    pool = WorkerPool.create { config with maxWorkers := min config.maxWorkers (m.resourceLimits.maxConcurrentWorkers - m.totalWorkerCount) } ws ∧
    m' = { m with pools := m.pools ++ [(config.name, pool)] } := by
  unfold WorkerPoolManager.createPool at h
  by_cases hdup : config.name ∈ m.pools.map Prod.fst
  · rw [if_pos hdup] at h
    exact absurd h (by simp)
  · rw [if_neg hdup] at h
    by_cases hfull : ((m.resourceLimits.maxConcurrentWorkers : Int)
        - (m.totalWorkerCount : Int)) ≤ 0
    · rw [if_pos hfull] at h
      exact absurd h (by simp)
    · rw [if_neg hfull] at h
      simp only [Except.ok.injEq, Prod.mk.injEq] at h
      have hlt : m.totalWorkerCount < m.resourceLimits.maxConcurrentWorkers := by
        omega
      have htoNat : ((m.resourceLimits.maxConcurrentWorkers : Int)
          - (m.totalWorkerCount : Int)).toNat
          = m.resourceLimits.maxConcurrentWorkers - m.totalWorkerCount := by
        omega
      refine ⟨hdup, hlt, ?_, ?_⟩
      · rw [← h.2, htoNat]
      · rw [← h.1, ← h.2]

/-- Claim C2 counterexample: on a manager with `maxConcurrentWorkers = 3`, two
successful `createPool` calls (each with no initial workers) produce pools
whose `maxWorkers` values sum to 5, because the remaining-capacity computation
counts the pools' current workers rather than their capacities. -/
theorem C2_sum_maxWorkers_counterexample :
    mgrLimit3.createPool ⟨2, "a"⟩ [] = .ok mgrAfterA ∧
    mgrAfterA.1.createPool ⟨3, "b"⟩ [] = .ok mgrAfterAB ∧
    (mgrAfterAB.1.pools.map (fun pr => pr.2.maxWorkers)).sum = 5 ∧
    mgrAfterAB.1.resourceLimits.maxConcurrentWorkers = 3 := by
  refine ⟨rfl, rfl, rfl, rfl⟩

/-- Claim C2, amended: the remaining-capacity computation of `createPool`
budgets against the sum of the existing pools' current worker counts, so the
ceiling bounds the sum of the pools' `maxWorkers` only when every pool is
created fully populated; for any sequence of successful `createPool` calls
that each supply at least `maxWorkers` initial workers, the sum of the
resulting pools' `maxWorkers` values never exceeds `maxConcurrentWorkers`. -/
theorem C2_fully_populated_ceiling (m : WorkerPoolManager)
    (h : ReachFullyPopulated m) :
    (m.pools.map (fun pr => pr.2.maxWorkers)).sum
      ≤ m.resourceLimits.maxConcurrentWorkers := by
  have main : (m.pools.map (fun pr => pr.2.getTotalCount)).sum
        ≤ m.resourceLimits.maxConcurrentWorkers ∧
      ∀ pr ∈ m.pools, pr.2.maxWorkers ≤ pr.2.getTotalCount := by
    induction h with
    | init rl => simp [WorkerPoolManager.create]
    | step config initWorkers hreach hinit hok ih =>
      obtain ⟨hdup, hlt, hpool, hm'⟩ := createPool_ok_inversion hok
      rename_i m m' pool
      have htot : pool.getTotalCount
          = min config.maxWorkers
              (m.resourceLimits.maxConcurrentWorkers - m.totalWorkerCount) := by
        rw [hpool, create_getTotalCount]
        omega
      have hmaxw : pool.maxWorkers
          = min config.maxWorkers
              (m.resourceLimits.maxConcurrentWorkers - m.totalWorkerCount) := by
        rw [hpool, create_maxWorkers]
      rw [hm']
      simp only [List.map_append, List.sum_append, List.map_cons, List.map_nil,
        List.sum_cons, List.sum_nil, List.mem_append, List.mem_singleton]
      have hsum := totalWorkerCount_eq_sum m
      have ih1 := ih.1
      constructor
      · omega
      · intro pr hpr
        rcases hpr with hpr | hpr
        · exact ih.2 pr hpr
        · have h2 : pr.2 = pool := by rw [hpr]
          rw [h2]
          omega
  calc (m.pools.map (fun pr => pr.2.maxWorkers)).sum
      ≤ (m.pools.map (fun pr => pr.2.getTotalCount)).sum :=
        List.sum_le_sum main.2
    _ ≤ m.resourceLimits.maxConcurrentWorkers := main.1

/-- Witness for the amended claim C2: one fully populated pool of capacity one
under a ceiling of two. -/
theorem C2_fully_populated_ceiling_witness :
    (mgrAfterFull.1.pools.map (fun pr => pr.2.maxWorkers)).sum
      ≤ mgrAfterFull.1.resourceLimits.maxConcurrentWorkers :=
  C2_fully_populated_ceiling mgrAfterFull.1
    (@ReachFullyPopulated.step mgrLimit2 mgrAfterFull.1 mgrAfterFull.2 ⟨1, "a"⟩ [5]
      (ReachFullyPopulated.init ⟨2, 0, 0⟩) (by decide) rfl)

/-- Claim C9: `createPool` fails with the duplicate-name error when the name
is registered; otherwise it fails with the resource-exhausted error when no
capacity remains, and otherwise succeeds with the requested `maxWorkers`
clamped to the remaining capacity. -/
theorem C9_createPool_spec (m : WorkerPoolManager) (config : WorkerPoolConfig)
    (ws : List Nat) :
    (config.name ∈ m.pools.map Prod.fst →
      m.createPool config ws = .error .duplicatePoolName) ∧
    (config.name ∉ m.pools.map Prod.fst →
      m.resourceLimits.maxConcurrentWorkers ≤ m.totalWorkerCount →
      m.createPool config ws = .error .resourceExhausted) ∧
    (config.name ∉ m.pools.map Prod.fst →
      m.totalWorkerCount < m.resourceLimits.maxConcurrentWorkers →
      ∃ m' pool, m.createPool config ws = .ok (m', pool) ∧
        pool.maxWorkers = min config.maxWorkers
          (m.resourceLimits.maxConcurrentWorkers - m.totalWorkerCount)) := by
  refine ⟨?_, ?_, ?_⟩
  · intro hdup
    unfold WorkerPoolManager.createPool
    rw [if_pos hdup]
  · intro hdup hfull
    unfold WorkerPoolManager.createPool
    rw [if_neg hdup, if_pos (by omega)]
  · intro hdup hlt
    unfold WorkerPoolManager.createPool
    rw [if_neg hdup, if_neg (by omega)]
    refine ⟨_, _, rfl, ?_⟩
    rw [create_maxWorkers]
    omega

/-- Witness for claim C9, the spec scenario: requesting capacity five on a
fresh manager with a ceiling of three yields a pool of effective capacity
three. -/
theorem C9_createPool_spec_witness :
    ∃ m' pool, mgrLimit3.createPool ⟨5, "pool"⟩ [] = .ok (m', pool) ∧
      pool.maxWorkers = 3 := by
  obtain ⟨m', pool, hok, hmax⟩ :=
    (C9_createPool_spec mgrLimit3 ⟨5, "pool"⟩ []).2.2 (by decide) (by decide)
  exact ⟨m', pool, hok, hmax.trans (by decide)⟩

/-- Claim C10: a freshly constructed queue with no tasks reports
`isComplete = true` (vacuously) and `hasPendingTasks = false`. -/
theorem C10_fresh_queue_complete (P : Type) (nm : String) :
    (TaskQueue.create P nm).isComplete = true ∧
    (TaskQueue.create P nm).hasPendingTasks = false :=
  ⟨rfl, rfl⟩

theorem markBatch_length {P : Type} (now : Nat) (n : Nat)
    (ts : List (TaskWithStatus P)) :
    (markBatch now n ts).length = ts.length := by
  induction ts generalizing n with
  | nil => cases n <;> rfl
  | cons t ts ih =>
    cases n with
    | zero => rfl
    | succ n =>
      unfold markBatch
      by_cases h : t.status = .pending
      · rw [if_pos h]
        simp [ih]
      · rw [if_neg h]
        simp [ih]

theorem markBatch_getElem {P : Type} (now : Nat) (n : Nat)
    (ts : List (TaskWithStatus P)) (i : Nat) (t : TaskWithStatus P)
    (hi : ts[i]? = some t) :
    (markBatch now n ts)[i]?
      = some (if t.status = .pending ∧
                (ts.take i).countP (fun x => x.status == .pending) < n
              then markDrawn now t else t) := by
  induction ts generalizing n i with
  | nil => simp at hi
  | cons hd tl ih =>
    cases n with
    | zero =>
      unfold markBatch
      rw [hi]
      congr 1
      rw [if_neg (by omega)]
    | succ n =>
      unfold markBatch
      by_cases hp : hd.status = .pending
      · rw [if_pos hp]
        cases i with
        | zero =>
          simp only [List.getElem?_cons_zero, Option.some.injEq] at hi
          subst hi
          simp only [List.getElem?_cons_zero, Option.some.injEq]
          rw [if_pos ⟨hp, by simp⟩]
        | succ i =>
          simp only [List.getElem?_cons_succ] at hi
          simp only [List.getElem?_cons_succ]
          rw [ih n i hi]
          congr 1
          have hcount : ((hd :: tl).take (i + 1)).countP (fun x => x.status == .pending)
              = (tl.take i).countP (fun x => x.status == .pending) + 1 := by
            simp [List.countP_cons, hp]
          by_cases hc : t.status = .pending ∧
              (tl.take i).countP (fun x => x.status == .pending) < n
          · rw [if_pos hc, if_pos ⟨hc.1, by omega⟩]
          · rw [if_neg hc, if_neg (by
              intro hcon
              exact hc ⟨hcon.1, by omega⟩)]
      · rw [if_neg hp]
        cases i with
        | zero =>
          simp only [List.getElem?_cons_zero, Option.some.injEq] at hi
          subst hi
          simp only [List.getElem?_cons_zero, Option.some.injEq]
          rw [if_neg (by
            intro hcon
            exact hp hcon.1)]
        | succ i =>
          simp only [List.getElem?_cons_succ] at hi
          simp only [List.getElem?_cons_succ]
          rw [ih (n + 1) i hi]
          congr 1
          have hcount : ((hd :: tl).take (i + 1)).countP (fun x => x.status == .pending)
              = (tl.take i).countP (fun x => x.status == .pending) := by
            simp [List.countP_cons, hp]
          by_cases hc : t.status = .pending ∧
              (tl.take i).countP (fun x => x.status == .pending) < n + 1
          · rw [if_pos hc, if_pos ⟨hc.1, by omega⟩]
          · rw [if_neg hc, if_neg (by
              intro hcon
              exact hc ⟨hcon.1, by omega⟩)]

/-- Claim C8: `getNextBatch` returns exactly the first
`min(limit, number of pending tasks)` pending tasks in insertion order, each
updated to `in_progress` with `attempts` incremented and `lastAttempt`
stamped; in the updated queue exactly those drawn tasks are replaced in
place (a task at position `i` is updated iff it was pending and fewer than
`limit` pending tasks precede it), all other tasks unchanged. -/
theorem C8_getNextBatch_spec {P : Type} (q : TaskQueue P) (limit now : Nat) :
    (q.getNextBatch limit now).2
      = ((q.tasks.filter (fun t => t.status == .pending)).take limit).map
          (markDrawn now) ∧
    (q.getNextBatch limit now).2.length
      = min limit (q.tasks.countP (fun t => t.status == .pending)) ∧
    (∀ t ∈ (q.getNextBatch limit now).2,
      t.status = .inProgress ∧ t.lastAttempt = some now) ∧
    (q.getNextBatch limit now).1.tasks.length = q.tasks.length ∧
    (∀ i t, q.tasks[i]? = some t →
      (q.getNextBatch limit now).1.tasks[i]?
        = some (if t.status = .pending ∧
                  (q.tasks.take i).countP (fun x => x.status == .pending) < limit
                then markDrawn now t else t)) := by
  refine ⟨rfl, ?_, ?_, ?_, ?_⟩
  · simp [TaskQueue.getNextBatch, List.length_take, List.countP_eq_length_filter]
  · intro t ht
    simp only [TaskQueue.getNextBatch, List.mem_map] at ht
    obtain ⟨x, _, hx⟩ := ht
    rw [← hx]
    exact ⟨rfl, rfl⟩
  · exact markBatch_length now limit q.tasks
  · intro i t hi
    exact markBatch_getElem now limit q.tasks i t hi

/-- Witness for claim C8 on a queue holding one drawn and two pending tasks:
a batch of limit two draws the two pending tasks in order. -/
theorem C8_getNextBatch_spec_witness :
    (witnessQueue.getNextBatch 2 7).2
      = ((witnessQueue.tasks.filter (fun t => t.status == .pending)).take 2).map
          (markDrawn 7) ∧
    (witnessQueue.getNextBatch 2 7).2.length
      = min 2 (witnessQueue.tasks.countP (fun t => t.status == .pending)) :=
  ⟨(C8_getNextBatch_spec witnessQueue 2 7).1,
   (C8_getNextBatch_spec witnessQueue 2 7).2.1⟩

theorem updateFirst_getElem {P : Type} (taskId : Nat)
    (f : TaskWithStatus P → TaskWithStatus P) (ts : List (TaskWithStatus P))
    (i : Nat) (t : TaskWithStatus P) (hi : ts[i]? = some t) :
    (updateFirst taskId f ts)[i]?
      = some (if t.id = taskId ∧ (ts.take i).all (fun x => decide (x.id ≠ taskId))
              then f t else t) := by
  induction ts generalizing i with
  | nil => simp at hi
  | cons hd tl ih =>
    unfold updateFirst
    by_cases hd1 : hd.id = taskId
    · rw [if_pos hd1]
      cases i with
      | zero =>
        simp only [List.getElem?_cons_zero, Option.some.injEq] at hi
        subst hi
        simp only [List.getElem?_cons_zero, Option.some.injEq]
        rw [if_pos ⟨hd1, by simp⟩]
      | succ i =>
        simp only [List.getElem?_cons_succ] at hi
        simp only [List.getElem?_cons_succ]
        rw [hi]
        congr 1
        rw [if_neg]
        intro hcon
        have := hcon.2
        simp only [List.take_succ_cons, List.all_cons, Bool.and_eq_true,
          decide_eq_true_eq] at this
        exact this.1 hd1
    · rw [if_neg hd1]
      cases i with
      | zero =>
        simp only [List.getElem?_cons_zero, Option.some.injEq] at hi
        subst hi
        simp only [List.getElem?_cons_zero, Option.some.injEq]
        rw [if_neg (by intro hcon; exact hd1 hcon.1)]
      | succ i =>
        simp only [List.getElem?_cons_succ] at hi
        simp only [List.getElem?_cons_succ]
        rw [ih i hi]
        congr 1
        by_cases hc : t.id = taskId ∧ (tl.take i).all (fun x => decide (x.id ≠ taskId))
        · rw [if_pos hc, if_pos ⟨hc.1, by
            simp only [List.take_succ_cons, List.all_cons, Bool.and_eq_true,
              decide_eq_true_eq]
            exact ⟨hd1, hc.2⟩⟩]
        · rw [if_neg hc, if_neg (by
            intro hcon
            apply hc
            refine ⟨hcon.1, ?_⟩
            have := hcon.2
            simp only [List.take_succ_cons, List.all_cons, Bool.and_eq_true] at this
            exact this.2)]

theorem addTasks_tasks_extends {P : Type} (ps : List P) (q : TaskQueue P)
    (acc : List (TaskWithStatus P)) :
    ∃ ext, (ps.foldl
        (fun pr payload =>
          let (q1, t) := pr.1.addTask payload
          (q1, pr.2 ++ [t]))
        (q, acc)).1.tasks = q.tasks ++ ext := by
  induction ps generalizing q acc with
  | nil => exact ⟨[], by simp⟩
  | cons p ps ih =>
    rw [List.foldl_cons]
    obtain ⟨ext, hext⟩ := ih (q.addTask p).1 (acc ++ [(q.addTask p).2])
    refine ⟨(q.addTask p).2 :: ext, ?_⟩
    rw [hext]
    simp [TaskQueue.addTask]

/-- Claim C7 counterexample: after a task reaches the terminal status
`completed`, a further `updateTaskStatus` call moves it to `failed`, so the
status history `pending, in_progress, completed, failed` leaves a terminal
state and is not a subsequence of the claimed lifecycle. -/
theorem C7_terminal_regress_counterexample :
    (((((TaskQueue.create Nat "q").addTask 7).1.getNextBatch 1 0).1.updateTaskStatus
        0 .completed none).tasks.map (fun t => t.status) = [TaskStatus.completed]) ∧
    ((((((TaskQueue.create Nat "q").addTask 7).1.getNextBatch 1 0).1.updateTaskStatus
        0 .completed none).updateTaskStatus 0 .failed none).tasks.map
          (fun t => t.status) = [TaskStatus.failed]) := by
  refine ⟨by decide, by decide⟩

/-- Claim C7, amended: under every queue operation, a task's status rank along
`pending → in_progress → terminal` never decreases (although the code may
overwrite one terminal status with the other, it never leaves the terminal
class), and `attempts` is non-decreasing, incremented exactly once when and
only when the task is drawn by that `getNextBatch` call. -/
theorem C7_lifecycle_monotone {P : Type} (q : TaskQueue P) (op : QueueOp P)
    (i : Nat) (t : TaskWithStatus P) (hi : q.tasks[i]? = some t) :
    ∃ u, (q.applyOp op).tasks[i]? = some u ∧
      statusRank t.status ≤ statusRank u.status ∧
      (statusRank t.status = 2 → statusRank u.status = 2) ∧
      t.attempts ≤ u.attempts ∧
      u.attempts ≤ t.attempts + 1 ∧
      (u.attempts = t.attempts + 1 ↔
        ∃ limit now, op = .getNextBatch limit now ∧ t.status = .pending ∧
          (q.tasks.take i).countP (fun x => x.status == .pending) < limit) := by
  have hbound : i < q.tasks.length := by
    rcases List.getElem?_eq_some.mp hi with ⟨h, _⟩
    exact h
  cases op with
  | addTask payload =>
    refine ⟨t, ?_, le_refl _, fun h => h, le_refl _, by omega, ?_⟩
    · show ((q.addTask payload).1.tasks)[i]? = some t
      rw [show (q.addTask payload).1.tasks = q.tasks ++ [_] from rfl]
      rw [List.getElem?_append, if_pos hbound]
      exact hi
    · constructor
      · intro h
        omega
      · rintro ⟨limit, now, hop, -⟩
        exact absurd hop (by simp)
  | addTasks payloads =>
    obtain ⟨ext, hext⟩ := addTasks_tasks_extends payloads q []
    refine ⟨t, ?_, le_refl _, fun h => h, le_refl _, by omega, ?_⟩
    · show ((q.addTasks payloads).1.tasks)[i]? = some t
      unfold TaskQueue.addTasks
      rw [hext, List.getElem?_append, if_pos hbound]
      exact hi
    · constructor
      · intro h
        omega
      · rintro ⟨limit, now, hop, -⟩
        exact absurd hop (by simp)
  | getNextBatch limit now =>
    have hmark := markBatch_getElem now limit q.tasks i t hi
    by_cases hc : t.status = .pending ∧
        (q.tasks.take i).countP (fun x => x.status == .pending) < limit
    · rw [if_pos hc] at hmark
      refine ⟨markDrawn now t, hmark, ?_, ?_, ?_, ?_, ?_⟩
      · rw [hc.1]
        simp [markDrawn, statusRank]
      · intro h
        rw [hc.1] at h
        simp [statusRank] at h
      · simp [markDrawn]
      · simp [markDrawn]
      · simp only [markDrawn, true_iff]
        exact ⟨limit, now, rfl, hc.1, hc.2⟩
    · rw [if_neg hc] at hmark
      refine ⟨t, hmark, le_refl _, fun h => h, le_refl _, by omega, ?_⟩
      constructor
      · intro h
        omega
      · rintro ⟨limit', now', hop, hpend, hcount⟩
        injection hop with h1 h2
        exact absurd ⟨hpend, h1 ▸ hcount⟩ hc
  | updateTaskStatus taskId status err =>
    show ∃ u, (q.updateTaskStatus taskId status err).tasks[i]? = some u ∧ _
    unfold TaskQueue.updateTaskStatus
    by_cases hfind : (q.tasks.find? (fun x => x.id == taskId)).isSome
    · rw [if_pos hfind]
      have hupd := updateFirst_getElem taskId (applyTerminal status err) q.tasks i t hi
      by_cases hc : t.id = taskId ∧ (q.tasks.take i).all (fun x => decide (x.id ≠ taskId))
      · rw [if_pos hc] at hupd
        refine ⟨applyTerminal status err t, hupd, ?_, ?_, le_refl _, by simp [applyTerminal], ?_⟩
        · cases status <;> cases t.status <;> simp [applyTerminal, statusRank,
            TerminalStatus.toTaskStatus]
        · intro h
          cases status <;> simp [applyTerminal, statusRank, TerminalStatus.toTaskStatus]
        · constructor
          · intro h
            simp only [applyTerminal] at h
            omega
          · rintro ⟨limit, now, hop, -⟩
            exact absurd hop (by simp)
      · rw [if_neg hc] at hupd
        refine ⟨t, hupd, le_refl _, fun h => h, le_refl _, by omega, ?_⟩
        constructor
        · intro h
          omega
        · rintro ⟨limit, now, hop, -⟩
          exact absurd hop (by simp)
    · rw [if_neg hfind]
      refine ⟨t, hi, le_refl _, fun h => h, le_refl _, by omega, ?_⟩
      constructor
      · intro h
        omega
      · rintro ⟨limit, now, hop, -⟩
        exact absurd hop (by simp)

/-- Witness for the amended claim C7: drawing a batch of two from
`witnessQueue` marks its pending task at position 1 and increments its
attempts exactly once. -/
theorem C7_lifecycle_monotone_witness :
    ∃ u, (witnessQueue.applyOp (QueueOp.getNextBatch 2 7)).tasks[1]? = some u ∧
      statusRank witnessTask1.status ≤ statusRank u.status ∧
      (statusRank witnessTask1.status = 2 → statusRank u.status = 2) ∧
      witnessTask1.attempts ≤ u.attempts ∧
      u.attempts ≤ witnessTask1.attempts + 1 ∧
      (u.attempts = witnessTask1.attempts + 1 ↔
        ∃ limit now, (QueueOp.getNextBatch 2 7 : QueueOp Nat) = .getNextBatch limit now ∧
          witnessTask1.status = .pending ∧
          (witnessQueue.tasks.take 1).countP (fun x => x.status == .pending) < limit) :=
  C7_lifecycle_monotone witnessQueue (QueueOp.getNextBatch 2 7) 1 witnessTask1 rfl

theorem rangeMapSet {α : Type} (k m : Nat) (g : Nat → α) (x : α) :
    ((List.range k).map g).set m x
      = (List.range k).map (fun j => if j = m then x else g j) := by
  apply List.ext_getElem
  · simp
  · intro j h1 h2
    simp only [List.getElem_set, List.getElem_map, List.getElem_range]
    by_cases h : m = j
    · simp [h]
    · simp [h, Ne.symm h]

theorem distribute_foldl {P : Type} (k : Nat) (hk : 0 < k)
    (l : List (Nat × Scraper.Task P)) (g : Nat → List (Scraper.Task P)) :
    l.foldl
      (fun acc p =>
        acc.bind (fun batches =>
          if p.1 % k < batches.length then
            some (batches.set (p.1 % k) (batches.getD (p.1 % k) [] ++ [p.2]))
          else none))
      (some ((List.range k).map g))
      = some ((List.range k).map (fun j =>
          g j ++ (l.filter (fun p => p.1 % k = j)).map Prod.snd)) := by
  induction l generalizing g with
  | nil => simp
  | cons p l ih =>
    rw [List.foldl_cons]
    have hmod : p.1 % k < k := Nat.mod_lt _ hk
    have hlt : p.1 % k < ((List.range k).map g).length := by
      simpa using hmod
    have hgetD : ((List.range k).map g).getD (p.1 % k) [] = g (p.1 % k) := by
      rw [List.getD_eq_getElem _ _ hlt]
      simp
    have hstep : (some ((List.range k).map g)).bind
        (fun batches =>
          if p.1 % k < batches.length then
            some (batches.set (p.1 % k) (batches.getD (p.1 % k) [] ++ [p.2]))
          else none)
        = some (((List.range k).map g).set (p.1 % k) (g (p.1 % k) ++ [p.2])) := by
      rw [Option.some_bind, if_pos hlt, hgetD]
    rw [hstep, rangeMapSet k (p.1 % k) g (g (p.1 % k) ++ [p.2]), ih]
    congr 1
    apply List.map_congr_left
    intro j hj
    by_cases hcase : p.1 % k = j
    · subst hcase
      simp [List.filter_cons, List.append_assoc]
    · have hne1 : ¬ (j = p.1 % k) := fun h => hcase h.symm
      have hne2 : ¬ (decide (p.1 % k = j) = true) := by simpa using hcase
      rw [if_neg hne1, List.filter_cons, if_neg hne2]

theorem distributeTasks_eq {P : Type} (k : Nat) (hk : 0 < k)
    (tasks : List (Scraper.Task P)) :
    distributeTasks k tasks
      = some ((List.range k).map (fun j =>
          (tasks.enum.filter (fun p => p.1 % k = j)).map Prod.snd)) := by
  unfold distributeTasks
  have hinit : (List.replicate k ([] : List (Scraper.Task P)))
      = (List.range k).map (fun _ => []) := by
    apply List.ext_getElem
    · simp
    · intro j h1 h2
      simp
  rw [hinit, distribute_foldl k hk tasks.enum (fun _ => [])]
  simp

/-- Claim C3: for a nonzero computed worker count `k`, the controller computes
`k = min(maxConcurrentWorkers, capacity, ceil(n / maxTasksPerWorker))` (with
capacity the pool's available count or the direct worker-list length), and
`distributeTasks` assigns the task at index `i` to the batch at index
`i mod k`: batch `j` is exactly the ordered sublist of tasks whose index is
congruent to `j` modulo `k`. -/
theorem C3_round_robin {P : Type} (c : BaseController) (tasks : List (Scraper.Task P))
    (k : Nat) (hkeq : k = c.numWorkers tasks.length) (hk : 0 < k) :
    (∀ p, c.workerPool = some p →
      k = min c.config.maxConcurrentWorkers
            (min p.getAvailableCount
              ((tasks.length + c.config.maxTasksPerWorker - 1)
                / c.config.maxTasksPerWorker))) ∧
    (c.workerPool = none →
      k = min c.config.maxConcurrentWorkers
            (min c.workers.length
              ((tasks.length + c.config.maxTasksPerWorker - 1)
                / c.config.maxTasksPerWorker))) ∧
    distributeTasks k tasks
      = some ((List.range k).map (fun j =>
          (tasks.enum.filter (fun p => p.1 % k = j)).map Prod.snd)) ∧
    (∀ i t, tasks[i]? = some t →
      t ∈ (tasks.enum.filter (fun p => p.1 % k = i % k)).map Prod.snd) := by
  refine ⟨?_, ?_, distributeTasks_eq k hk tasks, ?_⟩
  · intro p hp
    rw [hkeq]
    unfold BaseController.numWorkers
    rw [hp]
  · intro hp
    rw [hkeq]
    unfold BaseController.numWorkers
    rw [hp]
  · intro i t hi
    have henum : tasks.enum[i]? = some (i, t) := by
      rw [List.getElem?_enum, hi]
      rfl
    refine List.mem_map.mpr ⟨(i, t), List.mem_filter.mpr ⟨List.getElem?_mem henum, by simp⟩, rfl⟩

/-- Witness for claim C3, the spec scenario: five tasks, two direct workers,
`maxConcurrentWorkers = 2`, `maxTasksPerWorker = 3` give two batches holding
the tasks at indices {0,2,4} and {1,3}. -/
theorem C3_round_robin_witness :
    cDirect2.numWorkers exTasks5.length = 2 ∧
    distributeTasks 2 exTasks5
      = some [[⟨1, 0⟩, ⟨3, 0⟩, ⟨5, 0⟩], [⟨2, 0⟩, ⟨4, 0⟩]] := by
  have h := (C3_round_robin cDirect2 exTasks5 2 (by decide) (by decide)).2.2.1
  exact ⟨by decide, by rw [h]; decide⟩

/-- Claim C4 counterexample: with a bound worker pool that has no capacity at
all (no workers, none available) and an empty direct list, `execute` on one
task does not fail with the no-workers condition; the guard only checks pool
existence, and the run instead crashes with the indexing `TypeError` inside
the distribution loop. -/
theorem C4_guard_counterexample :
    cEmptyPool.workerPool = some emptyPool2 ∧
    emptyPool2.getAvailableCount = 0 ∧
    emptyPool2.getTotalCount = 0 ∧
    cEmptyPool.workers = [] ∧
    cEmptyPool.status.isExecuting = false ∧
    cEmptyPool.execute envOkNat [⟨1, 0⟩] = .error .typeError ∧
    ExecError.typeError ≠ ExecError.noWorkersAvailable := by
  refine ⟨rfl, rfl, rfl, rfl, rfl, rfl, by decide⟩

/-- Claim C4, amended: `execute` fails with the already-executing condition
whenever called while a run is in flight (checked first, leaving all state
untouched); it fails with the no-workers condition exactly when no pool is
bound and the direct worker list is empty — a bound pool passes the guard
even when it currently has no capacity. -/
theorem C4_guard_amended {P R E : Type} (c : BaseController)
    (env : Nat → List (Scraper.Task P) → Except E (List (TaskResult R E)))
    (tasks : List (Scraper.Task P)) :
    (c.status.isExecuting = true → c.execute env tasks = .error .alreadyExecuting) ∧
    (c.status.isExecuting = false →
      (c.execute env tasks = .error .noWorkersAvailable ↔
        (c.workerPool = none ∧ c.workers = []))) := by
  constructor
  · intro h
    simp [BaseController.execute, h]
  · intro h
    unfold BaseController.execute
    simp only [h, Bool.false_eq_true, if_false]
    by_cases hcond : (c.workerPool.isNone && c.workers.isEmpty) = true
    · rw [if_pos hcond]
      simp only [Bool.and_eq_true, Option.isNone_iff_eq_none, List.isEmpty_iff] at hcond
      simp [hcond]
    · rw [if_neg hcond]
      simp only [Bool.and_eq_true, Option.isNone_iff_eq_none, List.isEmpty_iff] at hcond
      apply iff_of_false
      · cases hd : distributeTasks (c.numWorkers tasks.length) tasks with
        | none => simp [hd]
        | some batches => simp [hd]
      · intro hcon
        exact hcond ⟨hcon.1, hcon.2⟩

/-- Witness for the amended claim C4: a controller that is already executing
rejects a second submission with the already-executing condition. -/
theorem C4_guard_amended_witness :
    cBusy.execute envOkNat [⟨1, 0⟩] = .error .alreadyExecuting :=
  (C4_guard_amended cBusy envOkNat [⟨1, 0⟩]).1 rfl

theorem assignLoop_batches {P : Type} (ws : List Nat) :
    ∀ (bs : List (List (Scraper.Task P))) (pool? : Option WorkerPool) (i : Nat),
      ((assignLoop ws pool? i bs).1.map (fun e => e.2.1)) = bs := by
  intro bs
  induction bs with
  | nil => intro pool? i; rfl
  | cons b bs ih =>
    intro pool? i
    by_cases hb : b.isEmpty
    · simp [assignLoop, hb, ih]
    · cases pool? with
      | some pool => simp [assignLoop, hb, ih]
      | none => simp [assignLoop, hb, ih]

theorem assignLoop_pool_isSome {P : Type} (ws : List Nat) :
    ∀ (bs : List (List (Scraper.Task P))) (p : WorkerPool) (i : Nat),
      (∀ b ∈ bs, b ≠ []) → bs.length ≤ p.availableWorkers.length →
      ∀ e ∈ (assignLoop ws (some p) i bs).1, e.2.2.isSome := by
  intro bs
  induction bs with
  | nil =>
    intro p i hne hlen e he
    simp [assignLoop] at he
  | cons b bs ih =>
    intro p i hne hlen e he
    have hbne := hne b (List.mem_cons_self b bs)
    have hb : b.isEmpty = false := by
      rw [Bool.eq_false_iff]
      intro hcon
      exact hbne (List.isEmpty_iff.mp hcon)
    have hav : p.availableWorkers ≠ [] := by
      intro hcon
      rw [hcon] at hlen
      simp at hlen
    cases hlast : p.availableWorkers.getLast? with
    | none => exact absurd (List.getLast?_eq_none_iff.mp hlast) hav
    | some w =>
      rw [assignLoop] at he
      rw [if_neg (by simp [hb])] at he
      simp only [WorkerPool.borrowWorker, hlast, List.mem_cons] at he
      rcases he with he | he
      · rw [he]
        rfl
      · refine ih _ (i + 1) (fun b' hb' => hne b' (List.mem_cons_of_mem b hb')) ?_ e he
        simp only [List.length_dropLast]
        have : bs.length + 1 ≤ p.availableWorkers.length := by simpa using hlen
        omega

theorem assignLoop_direct_isSome {P : Type} (ws : List Nat) (hws : ws ≠ []) :
    ∀ (bs : List (List (Scraper.Task P))) (i : Nat), (∀ b ∈ bs, b ≠ []) →
      ∀ e ∈ (assignLoop ws none i bs).1, e.2.2.isSome := by
  intro bs
  induction bs with
  | nil =>
    intro i hne e he
    simp [assignLoop] at he
  | cons b bs ih =>
    intro i hne e he
    have hbne := hne b (List.mem_cons_self b bs)
    have hb : b.isEmpty = false := by
      rw [Bool.eq_false_iff]
      intro hcon
      exact hbne (List.isEmpty_iff.mp hcon)
    have hw : ws.isEmpty = false := by
      rw [Bool.eq_false_iff]
      intro hcon
      exact hws (List.isEmpty_iff.mp hcon)
    rw [assignLoop] at he
    rw [if_neg (by simp [hb])] at he
    simp only [hw, Bool.false_eq_true, if_false, List.mem_cons] at he
    rcases he with he | he
    · rw [he]
      rfl
    · exact ih (i + 1) (fun b' hb' => hne b' (List.mem_cons_of_mem b hb')) e he

theorem runAssignments_results {P R E : Type}
    (env : Nat → List (Scraper.Task P) → Except E (List (TaskResult R E))) :
    ∀ (asgn : List (Assignment P)) (pool? : Option WorkerPool) (st : ControllerStatus),
      (runAssignments env asgn pool? st).1
        = asgn.filterMap (fun a =>
            match a.2.2 with
            | none => none
            | some w => some (⟨a.1 + 1,
                match env w a.2.1 with
                | .ok rs => rs
                | .error err => a.2.1.map (batchFailureResult err)⟩ :
                  WorkerExecutionResult R E)) := by
  intro asgn
  induction asgn with
  | nil => intro pool? st; rfl
  | cons a rest ih =>
    intro pool? st
    obtain ⟨i, b, w?⟩ := a
    cases w? with
    | none => simp [runAssignments, ih, List.filterMap_cons]
    | some w =>
      cases he : env w b with
      | ok rs => simp [runAssignments, he, ih, List.filterMap_cons]
      | error err => simp [runAssignments, he, ih, List.filterMap_cons]

theorem runAssignments_flat_ids {P R E : Type}
    (env : Nat → List (Scraper.Task P) → Except E (List (TaskResult R E)))
    (henv : ∀ w ts rs, env w ts = .ok rs →
      rs.map (fun r => r.taskId) = ts.map (fun t => t.id)) :
    ∀ (asgn : List (Assignment P)) (pool? : Option WorkerPool) (st : ControllerStatus),
      (∀ e ∈ asgn, e.2.2.isSome) →
      (((runAssignments env asgn pool? st).1.map (fun r => r.results)).flatten.map
          (fun r => r.taskId))
        = ((asgn.map (fun e => e.2.1)).flatten.map (fun t => t.id)) := by
  intro asgn
  induction asgn with
  | nil => intro pool? st hsome; rfl
  | cons a rest ih =>
    intro pool? st hsome
    obtain ⟨i, b, w?⟩ := a
    have hw : w?.isSome := hsome (i, b, w?) (by simp)
    cases w? with
    | none => simp at hw
    | some w =>
      have ihr := fun pool1 st1 => ih pool1 st1 (fun e he2 => hsome e (List.mem_cons_of_mem _ he2))
      cases he : env w b with
      | ok rs =>
        have hids := henv w b rs he
        simp [runAssignments, he, List.map_append, hids, ihr]
      | error err =>
        simp [runAssignments, he, List.map_append, List.map_map, ihr,
          batchFailureResult, Function.comp]

theorem sum_map_range_ite (k m c : Nat) (hm : m < k) :
    ((List.range k).map (fun j => if m = j then c else 0)).sum = c := by
  induction k with
  | zero => omega
  | succ k ih =>
    rw [List.range_succ, List.map_append, List.sum_append]
    by_cases h : m = k
    · subst h
      have hz : ((List.range m).map (fun j => if m = j then c else 0)).sum = 0 := by
        apply List.sum_eq_zero
        intro x hx
        simp only [List.mem_map, List.mem_range] at hx
        obtain ⟨j, hj, hjx⟩ := hx
        rw [← hjx, if_neg (by omega)]
      simp [hz]
    · have hm' : m < k := by omega
      rw [ih hm']
      simp [h]

theorem sum_map_range_add (k : Nat) (f g : Nat → Nat) :
    ((List.range k).map (fun j => f j + g j)).sum
      = ((List.range k).map f).sum + ((List.range k).map g).sum := by
  induction k with
  | zero => rfl
  | succ k ih =>
    rw [List.range_succ]
    simp [List.map_append, List.sum_append, ih]
    omega

theorem sum_count_filter_mod {τ : Type} [DecidableEq τ] (k : Nat) (hk : 0 < k) (x : τ) :
    ∀ (l : List (Nat × τ)),
      ((List.range k).map (fun j =>
        ((l.filter (fun p => p.1 % k = j)).map Prod.snd).count x)).sum
        = (l.map Prod.snd).count x := by
  intro l
  induction l with
  | nil => simp
  | cons p l ih =>
    have hterm : ∀ j, (((p :: l).filter (fun q => q.1 % k = j)).map Prod.snd).count x
        = (((l.filter (fun q => q.1 % k = j)).map Prod.snd).count x)
          + (if p.1 % k = j then (if p.2 = x then 1 else 0) else 0) := by
      intro j
      rw [List.filter_cons]
      by_cases hc : p.1 % k = j
      · rw [if_pos (by simpa using hc), if_pos hc]
        simp only [List.map_cons, List.count_cons]
        by_cases hpx : p.2 = x <;> simp [hpx]
      · rw [if_neg (by simpa using hc), if_neg hc]
        omega
    rw [List.map_congr_left (fun j _ => hterm j), sum_map_range_add,
      sum_map_range_ite k (p.1 % k) _ (Nat.mod_lt _ hk), ih]
    simp only [List.map_cons, List.count_cons]
    by_cases hpx : p.2 = x <;> simp [hpx]

theorem roundRobin_perm {τ : Type} [DecidableEq τ] (k : Nat) (hk : 0 < k)
    (l : List (Nat × τ)) :
    (((List.range k).map (fun j =>
        (l.filter (fun p => p.1 % k = j)).map Prod.snd)).flatten).Perm
      (l.map Prod.snd) := by
  rw [List.perm_iff_count]
  intro x
  rw [List.count_flatten, List.map_map]
  exact sum_count_filter_mod k hk x l

theorem ceil_div_le_self (n m : Nat) (hm : 1 ≤ m) : (n + m - 1) / m ≤ n := by
  have h1 : n ≤ n * m := Nat.le_mul_of_pos_right n (by omega)
  have h2 : n + m - 1 < (n + 1) * m := by
    have h3 : (n + 1) * m = n * m + m := by ring
    omega
  have h4 := (Nat.div_lt_iff_lt_mul (by omega : 0 < m)).mpr h2
  omega

theorem one_le_ceil_div (n m : Nat) (hm : 1 ≤ m) (hn : 1 ≤ n) :
    1 ≤ (n + m - 1) / m := by
  rw [Nat.le_div_iff_mul_le (by omega : 0 < m)]
  omega

theorem execute_eq_ok {P R E : Type} (c : BaseController)
    (env : Nat → List (Scraper.Task P) → Except E (List (TaskResult R E)))
    (tasks : List (Scraper.Task P)) (batches : List (List (Scraper.Task P)))
    (hexec : c.status.isExecuting = false)
    (hguard : (c.workerPool.isNone && c.workers.isEmpty) = false)
    (hd : distributeTasks (c.numWorkers tasks.length) tasks = some batches) :
    c.execute env tasks = .ok (executeCore c env tasks batches) := by
  unfold BaseController.execute
  simp [hexec, hguard, hd]

theorem execute_master {P R E : Type} [DecidableEq P] (c : BaseController)
    (env : Nat → List (Scraper.Task P) → Except E (List (TaskResult R E)))
    (tasks : List (Scraper.Task P))
    (hexec : c.status.isExecuting = false)
    (hmtpw : 1 ≤ c.config.maxTasksPerWorker)
    (hmcw : 1 ≤ c.config.maxConcurrentWorkers)
    (hmode : (∃ p, c.workerPool = some p ∧ 1 ≤ p.availableWorkers.length) ∨
             (c.workerPool = none ∧ c.workers ≠ []))
    (henv : ∀ w ts rs, env w ts = .ok rs →
      rs.map (fun r => r.taskId) = ts.map (fun t => t.id)) :
    ∃ batches,
      distributeTasks (c.numWorkers tasks.length) tasks = some batches ∧
      c.execute env tasks = .ok (executeCore c env tasks batches) ∧
      (∀ e ∈ (assignLoop c.workers c.workerPool 0 batches).1, e.2.2.isSome) ∧
      ((executeCore c env tasks batches).1.map (fun r => r.taskId)).Perm
        (tasks.map (fun t => t.id)) := by
  have hguard : (c.workerPool.isNone && c.workers.isEmpty) = false := by
    rcases hmode with ⟨p, hp, _⟩ | ⟨hp, hw⟩
    · simp [hp]
    · cases hwl : c.workers with
      | nil => exact absurd hwl hw
      | cons a l => simp [hp, hwl]
  by_cases htasks : tasks = []
  · subst htasks
    have hk0 : c.numWorkers 0 = 0 := by
      unfold BaseController.numWorkers
      have hdz : (c.config.maxTasksPerWorker - 1) / c.config.maxTasksPerWorker = 0 :=
        Nat.div_eq_of_lt (by omega)
      cases c.workerPool <;> simp [hdz]
    refine ⟨[], ?_, ?_, ?_, ?_⟩
    · simp only [List.length_nil, hk0]
      rfl
    · apply execute_eq_ok c env [] [] hexec hguard
      simp only [List.length_nil, hk0]
      rfl
    · intro e he
      simp [assignLoop] at he
    · simp [executeCore, assignLoop, runAssignments]
  · have hn : 1 ≤ tasks.length := List.length_pos.mpr htasks
    have hceil : 1 ≤ (tasks.length + c.config.maxTasksPerWorker - 1)
        / c.config.maxTasksPerWorker := one_le_ceil_div _ _ hmtpw hn
    have hk1 : 1 ≤ c.numWorkers tasks.length := by
      unfold BaseController.numWorkers
      rcases hmode with ⟨p, hp, hpav⟩ | ⟨hp, hw⟩
      · rw [hp]
        exact Nat.le_min.mpr ⟨hmcw, Nat.le_min.mpr ⟨hpav, hceil⟩⟩
      · rw [hp]
        exact Nat.le_min.mpr ⟨hmcw, Nat.le_min.mpr ⟨List.length_pos.mpr hw, hceil⟩⟩
    have hkceil : c.numWorkers tasks.length
        ≤ (tasks.length + c.config.maxTasksPerWorker - 1) / c.config.maxTasksPerWorker := by
      unfold BaseController.numWorkers
      cases c.workerPool <;>
        exact le_trans (Nat.min_le_right _ _) (Nat.min_le_right _ _)
    have hkn : c.numWorkers tasks.length ≤ tasks.length :=
      le_trans hkceil (ceil_div_le_self _ _ hmtpw)
    have hd := distributeTasks_eq (c.numWorkers tasks.length) (by omega) tasks
    have hbne : ∀ b ∈ (List.range (c.numWorkers tasks.length)).map (fun j =>
        (tasks.enum.filter (fun p => p.1 % (c.numWorkers tasks.length) = j)).map Prod.snd),
        b ≠ [] := by
      intro b hb
      simp only [List.mem_map, List.mem_range] at hb
      obtain ⟨j, hj, hjb⟩ := hb
      have hjn : j < tasks.length := lt_of_lt_of_le hj hkn
      have hje : tasks.enum[j]? = some (j, tasks[j]) := by
        rw [List.getElem?_enum, List.getElem?_eq_getElem hjn]
        rfl
      rw [← hjb]
      exact List.ne_nil_of_mem (List.mem_map.mpr ⟨(j, tasks[j]),
        List.mem_filter.mpr ⟨List.getElem?_mem hje, by simp [Nat.mod_eq_of_lt hj]⟩, rfl⟩)
    have hsome : ∀ e ∈ (assignLoop c.workers c.workerPool 0
        ((List.range (c.numWorkers tasks.length)).map (fun j =>
          (tasks.enum.filter (fun p => p.1 % (c.numWorkers tasks.length) = j)).map
            Prod.snd))).1, e.2.2.isSome := by
      rcases hmode with ⟨p, hp, hpav⟩ | ⟨hp, hw⟩
      · rw [hp]
        apply assignLoop_pool_isSome c.workers _ p 0 hbne
        have hkav : c.numWorkers tasks.length ≤ p.availableWorkers.length := by
          unfold BaseController.numWorkers
          rw [hp]
          exact le_trans (Nat.min_le_right _ _) (Nat.min_le_left _ _)
        simpa using hkav
      · rw [hp]
        exact assignLoop_direct_isSome c.workers hw _ 0 hbne
    refine ⟨_, hd, execute_eq_ok c env tasks _ hexec hguard hd, hsome, ?_⟩
    have hcore : (executeCore c env tasks ((List.range (c.numWorkers tasks.length)).map
        (fun j => (tasks.enum.filter (fun p =>
          p.1 % (c.numWorkers tasks.length) = j)).map Prod.snd))).1
        = ((runAssignments env
            (assignLoop c.workers c.workerPool 0 _).1
            (assignLoop c.workers c.workerPool 0 _).2
            (resetStatus tasks.length)).1.map (fun r => r.results)).flatten := rfl
    rw [hcore, runAssignments_flat_ids env henv _ _ _ hsome, assignLoop_batches]
    have hperm := (roundRobin_perm (c.numWorkers tasks.length) (by omega)
      tasks.enum).map (fun t => t.id)
    rwa [List.enum_map_snd] at hperm

/-- Claim C1: for every accepted task list (guards pass, positive
configuration, a usable pool or direct worker list, workers honouring the
batch contract), `execute` resolves with exactly one `TaskResult` per
submitted task: the result ids are a permutation of the submitted ids, the
lengths agree, and when the submitted ids are distinct every submitted id
occurs exactly once among the results. -/
theorem C1_execute_complete {P R E : Type} [DecidableEq P] (c : BaseController)
    (env : Nat → List (Scraper.Task P) → Except E (List (TaskResult R E)))
    (tasks : List (Scraper.Task P))
    (hexec : c.status.isExecuting = false)
    (hmtpw : 1 ≤ c.config.maxTasksPerWorker)
    (hmcw : 1 ≤ c.config.maxConcurrentWorkers)
    (hmode : (∃ p, c.workerPool = some p ∧ 1 ≤ p.availableWorkers.length) ∨
             (c.workerPool = none ∧ c.workers ≠ []))
    (henv : ∀ w ts rs, env w ts = .ok rs →
      rs.map (fun r => r.taskId) = ts.map (fun t => t.id)) :
    ∃ res finalStatus, c.execute env tasks = .ok (res, finalStatus) ∧
      (res.map (fun r => r.taskId)).Perm (tasks.map (fun t => t.id)) ∧
      res.length = tasks.length ∧
      ((tasks.map (fun t => t.id)).Nodup →
        ∀ a ∈ tasks.map (fun t => t.id), (res.map (fun r => r.taskId)).count a = 1) := by
  obtain ⟨batches, hd, hok, hsome, hperm⟩ :=
    execute_master c env tasks hexec hmtpw hmcw hmode henv
  refine ⟨(executeCore c env tasks batches).1, (executeCore c env tasks batches).2,
    by rw [hok], hperm, ?_, ?_⟩
  · have hlen := hperm.length_eq
    simpa using hlen
  · intro hnd a ha
    rw [hperm.count_eq]
    exact List.count_eq_one_of_mem hnd ha

/-- Witness for claim C1: two direct workers executing five tasks produce
five results covering each submitted id exactly once. -/
theorem C1_execute_complete_witness :
    ∃ res finalStatus, cDirect2.execute envOkNat exTasks5 = .ok (res, finalStatus) ∧
      (res.map (fun r => r.taskId)).Perm (exTasks5.map (fun t => t.id)) ∧
      res.length = exTasks5.length ∧
      ((exTasks5.map (fun t => t.id)).Nodup →
        ∀ a ∈ exTasks5.map (fun t => t.id), (res.map (fun r => r.taskId)).count a = 1) :=
  C1_execute_complete cDirect2 envOkNat exTasks5 rfl (by decide) (by decide)
    (Or.inr ⟨rfl, by decide⟩)
    (fun w ts rs h => by
      have h2 : ts.map (fun t => ({ taskId := t.id, success := true, data := some w, error := none } : TaskResult Nat Nat)) = rs := by
        simpa [envOkNat] using h
      rw [← h2, List.map_map]
      rfl)

/-- Claim C6: when the worker dispatched for a batch throws, the resolved
result array contains a failed `TaskResult` carrying the thrown error for
every task of that batch, the per-batch accounting step decrements
`pendingTasks` and increments `failedTasks` by exactly the batch size while
leaving `completedTasks` alone, the final counters satisfy
completed + failed = number of submitted tasks, and every dispatched batch's
result entry is computed from that batch's own worker call alone. -/
theorem C6_batch_throw {P R E : Type} [DecidableEq P] (c : BaseController)
    (env : Nat → List (Scraper.Task P) → Except E (List (TaskResult R E)))
    (tasks : List (Scraper.Task P))
    (hexec : c.status.isExecuting = false)
    (hmtpw : 1 ≤ c.config.maxTasksPerWorker)
    (hmcw : 1 ≤ c.config.maxConcurrentWorkers)
    (hmode : (∃ p, c.workerPool = some p ∧ 1 ≤ p.availableWorkers.length) ∨
             (c.workerPool = none ∧ c.workers ≠ []))
    (henv : ∀ w ts rs, env w ts = .ok rs →
      rs.map (fun r => r.taskId) = ts.map (fun t => t.id))
    (batches : List (List (Scraper.Task P)))
    (hd : distributeTasks (c.numWorkers tasks.length) tasks = some batches)
    (j : Nat) (b : List (Scraper.Task P)) (w : Nat) (e : E)
    (hmem : (j, b, some w) ∈ (assignLoop c.workers c.workerPool 0 batches).1)
    (herr : env w b = .error e) :
    ∃ res finalStatus, c.execute env tasks = .ok (res, finalStatus) ∧
      (∀ t ∈ b, batchFailureResult e t ∈ res) ∧
      finalStatus.completedTasks + finalStatus.failedTasks = tasks.length ∧
      (∀ (st : ControllerStatus) (pool? : Option WorkerPool),
        (runAssignments env [(j, b, some w)] pool? st).1
          = [⟨j + 1, b.map (batchFailureResult e)⟩] ∧
        (runAssignments env [(j, b, some w)] pool? st).2.1
          = { st with pendingTasks := st.pendingTasks - b.length,
                      failedTasks := st.failedTasks + b.length }) ∧
      res = (((assignLoop c.workers c.workerPool 0 batches).1.filterMap
          (fun a =>
            match a.2.2 with
            | none => none
            | some wrk => some (⟨a.1 + 1,
                match env wrk a.2.1 with
                | .ok rs => rs
                | .error err => a.2.1.map (batchFailureResult err)⟩ :
                  WorkerExecutionResult R E))).map (fun r => r.results)).flatten := by
  obtain ⟨batches', hd', hok, hsome, hperm⟩ :=
    execute_master c env tasks hexec hmtpw hmcw hmode henv
  have hbeq : batches' = batches := by
    have h := hd'.symm.trans hd
    injection h
  subst hbeq
  have hres : (executeCore c env tasks batches').1
      = (((assignLoop c.workers c.workerPool 0 batches').1.filterMap
          (fun a =>
            match a.2.2 with
            | none => none
            | some wrk => some (⟨a.1 + 1,
                match env wrk a.2.1 with
                | .ok rs => rs
                | .error err => a.2.1.map (batchFailureResult err)⟩ :
                  WorkerExecutionResult R E))).map (fun r => r.results)).flatten := by
    have hchar := runAssignments_results env
      (assignLoop c.workers c.workerPool 0 batches').1
      (assignLoop c.workers c.workerPool 0 batches').2
      (resetStatus tasks.length)
    calc (executeCore c env tasks batches').1
        = (((runAssignments env
            (assignLoop c.workers c.workerPool 0 batches').1
            (assignLoop c.workers c.workerPool 0 batches').2
            (resetStatus tasks.length)).1).map (fun r => r.results)).flatten := rfl
      _ = _ := by rw [hchar]
  refine ⟨(executeCore c env tasks batches').1, (executeCore c env tasks batches').2,
    by rw [hok], ?_, ?_, ?_, hres⟩
  · intro t ht
    rw [hres]
    have hentry : (⟨j + 1, b.map (batchFailureResult e)⟩ : WorkerExecutionResult R E)
        ∈ (assignLoop c.workers c.workerPool 0 batches').1.filterMap
          (fun a =>
            match a.2.2 with
            | none => none
            | some wrk => some (⟨a.1 + 1,
                match env wrk a.2.1 with
                | .ok rs => rs
                | .error err => a.2.1.map (batchFailureResult err)⟩ :
                  WorkerExecutionResult R E)) := by
      apply List.mem_filterMap.mpr
      refine ⟨(j, b, some w), hmem, ?_⟩
      simp [herr]
    apply List.mem_flatten.mpr
    refine ⟨b.map (batchFailureResult e), ?_, List.mem_map_of_mem _ ht⟩
    exact List.mem_map.mpr ⟨_, hentry, rfl⟩
  · have hcf : (executeCore c env tasks batches').2.completedTasks
        = (executeCore c env tasks batches').1.countP (fun r => r.success) := rfl
    have hff : (executeCore c env tasks batches').2.failedTasks
        = (executeCore c env tasks batches').1.countP (fun r => !r.success) := rfl
    rw [hcf, hff]
    have hsplit := countP_not_split (fun r : TaskResult R E => r.success)
      (executeCore c env tasks batches').1
    have hlen : (executeCore c env tasks batches').1.length = tasks.length := by
      have hpl := hperm.length_eq
      simpa using hpl
    omega
  · intro st pool?
    constructor
    · simp [runAssignments, herr]
    · simp [runAssignments, herr]

/-- Witness for claim C6: five tasks over two direct workers where the worker
serving batch 0 (tasks with ids 1, 3, 5) throws the exception value 99. -/
theorem C6_batch_throw_witness :
    ∃ res finalStatus, cDirect2.execute envFailNat exTasks5 = .ok (res, finalStatus) ∧
      (∀ t ∈ [(⟨1, 0⟩ : Scraper.Task Nat), ⟨3, 0⟩, ⟨5, 0⟩],
        batchFailureResult 99 t ∈ res) ∧
      finalStatus.completedTasks + finalStatus.failedTasks = exTasks5.length ∧
      (∀ (st : ControllerStatus) (pool? : Option WorkerPool),
        (runAssignments envFailNat
            [(0, [(⟨1, 0⟩ : Scraper.Task Nat), ⟨3, 0⟩, ⟨5, 0⟩], some 21)] pool? st).1
          = [⟨0 + 1, [(⟨1, 0⟩ : Scraper.Task Nat), ⟨3, 0⟩, ⟨5, 0⟩].map
              (batchFailureResult 99)⟩] ∧
        (runAssignments envFailNat
            [(0, [(⟨1, 0⟩ : Scraper.Task Nat), ⟨3, 0⟩, ⟨5, 0⟩], some 21)] pool? st).2.1
          = { st with pendingTasks := st.pendingTasks - [(⟨1, 0⟩ : Scraper.Task Nat), ⟨3, 0⟩, ⟨5, 0⟩].length, failedTasks := st.failedTasks + [(⟨1, 0⟩ : Scraper.Task Nat), ⟨3, 0⟩, ⟨5, 0⟩].length }) ∧
      res = (((assignLoop cDirect2.workers cDirect2.workerPool 0
          [[(⟨1, 0⟩ : Scraper.Task Nat), ⟨3, 0⟩, ⟨5, 0⟩], [⟨2, 0⟩, ⟨4, 0⟩]]).1.filterMap
          (fun a =>
            match a.2.2 with
            | none => none
            | some wrk => some (⟨a.1 + 1,
                match envFailNat wrk a.2.1 with
                | .ok rs => rs
                | .error err => a.2.1.map (batchFailureResult err)⟩ :
                  WorkerExecutionResult Nat Nat))).map (fun r => r.results)).flatten :=
  C6_batch_throw cDirect2 envFailNat exTasks5 rfl (by decide) (by decide)
    (Or.inr ⟨rfl, by decide⟩)
    (fun w ts rs h => by
      by_cases hw : (w == 21) = true
      · simp [envFailNat, hw] at h
      · have h2 : ts.map (fun t => ({ taskId := t.id, success := true, data := some w, error := none } : TaskResult Nat Nat)) = rs := by
          simpa [envFailNat, hw] using h
        rw [← h2, List.map_map]
        rfl)
    [[⟨1, 0⟩, ⟨3, 0⟩, ⟨5, 0⟩], [⟨2, 0⟩, ⟨4, 0⟩]] (by decide)
    0 [⟨1, 0⟩, ⟨3, 0⟩, ⟨5, 0⟩] 21 99 (by decide) rfl

/-- Witness for the amended claim C5: a concrete constructor call on two
distinct initial workers, and the return behaviour at a concrete pool with a
borrowed worker. -/
theorem C5_pool_invariant_preservation_witness :
    (WorkerPool.create ⟨2, "p"⟩ [1, 2]).Inv ∧
    (2 ∉ borrowedPool.workers → borrowedPool.returnWorker 2 = (borrowedPool, false)) ∧
    (2 ∈ borrowedPool.workers → 2 ∉ borrowedPool.availableWorkers →
      (borrowedPool.returnWorker 2).2 = true ∧
      ((borrowedPool.returnWorker 2).1.returnWorker 2)
        = ((borrowedPool.returnWorker 2).1, false)) :=
  ⟨(C5_pool_invariant_preservation borrowedPool 2 (by decide)).1 ⟨2, "p"⟩ [1, 2] (by decide),
   (C5_pool_invariant_preservation borrowedPool 2 (by decide)).2.2.2.2.1,
   (C5_pool_invariant_preservation borrowedPool 2 (by decide)).2.2.2.2.2.1⟩

end Scraper
